import Mathlib

/-!
# Verification of the product-matching engine (`src/utils/productMatcher.ts`)

A shallow embedding, in Lean 4, of the relevance scoring and ranking engine of
the `e-com-vision-search` repository, together with theorems settling the
specification claims about it.

Embedding conventions:
* JavaScript strings are Lean `String`s; the string operations the code uses
  (`toLowerCase`, `trim`, `split(/[\s,]+/)`, `includes`, `length`) are modelled
  by executable functions on the underlying character lists.  `toLowerCase` is
  modelled on the ASCII letters (the catalog and the MobileNet labels are
  ASCII), and the whitespace class is modelled by the four common ASCII
  whitespace characters recognised by `trim`/`split`.
* JavaScript numbers (the prediction probabilities and the scores) are
  modelled as rationals `ℚ`, i.e. exact arithmetic; floating-point rounding
  is outside the scope of the embedding.
* `Array.prototype.sort` with comparator `(a, b) => b.score - a.score` is
  modelled as a stable sort by descending score.
* The `console.*` calls of the source are side-effect-free logging and are
  dropped.
-/

/-! ## Character and string primitives (JavaScript model) -/

/-- The ASCII whitespace characters removed by `String.prototype.trim` and
matched by `\s` in the split pattern: space, tab, line feed, carriage
return. -/
def isWsChar (c : Char) : Bool :=
  c.toNat == 32 || c.toNat == 9 || c.toNat == 10 || c.toNat == 13

/-- A character matched by the split pattern `/[\s,]+/`: whitespace or a
comma. -/
def isSepChar (c : Char) : Bool :=
  isWsChar c || c.toNat == 44

/-- ASCII lower-casing of one character (model of `toLowerCase` acting on a
single character): `A`–`Z` is shifted to `a`–`z`, everything else is kept. -/
def lowerChar (c : Char) : Char :=
  if h : 65 ≤ c.toNat ∧ c.toNat ≤ 90 then
    Char.ofNatAux (c.toNat + 32) (Or.inl (by omega))
  else c

/-- Model of `String.prototype.toLowerCase`. -/
def strToLower (s : String) : String :=
  ⟨s.toList.map lowerChar⟩

/-- Model of `String.prototype.trim` on character lists: drop leading and
trailing whitespace. -/
def trimChars (l : List Char) : List Char :=
  ((l.dropWhile isWsChar).reverse.dropWhile isWsChar).reverse

/-- Model of `String.prototype.trim`. -/
def strTrim (s : String) : String :=
  ⟨trimChars s.toList⟩

/-- Model of `String.prototype.length` (the inputs are ASCII, so UTF-16 code
units and scalar values agree). -/
def strLen (s : String) : Nat :=
  s.toList.length

/-- Splitting a character list at every separator character.  Consecutive or
outer separators yield empty pieces; the caller filters those away, exactly
as `split(/[\s,]+/)` followed by `.filter(Boolean)` does in the source. -/
def splitChars : List Char → List (List Char)
  | [] => [[]]
  | c :: cs =>
    match splitChars cs with
    | [] => if isSepChar c then [[], []] else [[c]]
    | w :: ws => if isSepChar c then [] :: w :: ws else (c :: w) :: ws

/-- Is `a` a contiguous sublist of `l`?  (Executable substring test.) -/
def infixOfCh (a : List Char) : List Char → Bool
  | [] => a.isEmpty
  | c :: cs => a.isPrefixOf (c :: cs) || infixOfCh a cs

/-- Model of `a.includes(b)` on JavaScript strings. -/
def strIncludes (a b : String) : Bool :=
  infixOfCh b.toList a.toList

/-! ## Data model -/

/-- A classifier prediction (`Prediction` in `imageClassifier.ts`): a label
and a probability. -/
structure Prediction where
  className : String
  probability : ℚ
deriving DecidableEq, Repr

/-- A catalog product, restricted to the fields the matching engine reads
(`name`, `category`, `tags`). -/
structure Product where
  name : String
  category : String
  tags : List String
deriving DecidableEq, Repr

/-- An entry of the prediction index built inside `calculateSimilarity`:
a keyword together with the probability and the 0-based rank of the
prediction it came from. -/
structure PredictionWord where
  word : String
  probability : ℚ
  rank : Nat
deriving DecidableEq, Repr

/-- The `MatchScore` record returned by `calculateSimilarity`. -/
structure MatchScore where
  product : Product
  score : ℚ
  matchedTags : List String
deriving DecidableEq, Repr

/-! ## `tokenizeClassName` -/

/-- `tokenizeClassName` from `productMatcher.ts`: lower-case the trimmed
original and prepend it to the lower-cased, whitespace/comma-split,
trimmed, nonempty words of the input. -/
def tokenizeClassName (className : String) : List String :=
  let original := strTrim className
  let parts :=
    ((splitChars (strToLower className).toList).map
      (fun w => strTrim ⟨w⟩)).filter (fun s => !(s == ""))
  strToLower original :: parts

/-! ## The prediction index and the pair scoring of `calculateSimilarity` -/

/-- The rank multiplier computed inline in `calculateSimilarity`:
`rank === 0 ? 5 : rank === 1 ? 4 : rank === 2 ? 3 : 2`. -/
def rankMultiplier (rank : Nat) : ℚ :=
  if rank = 0 then 5 else if rank = 1 then 4 else if rank = 2 then 3 else 2

/-- The `predictions.forEach((pred, index) => ...)` loop that builds
`predictionWords`, parametrised by the rank of the first remaining
prediction: one entry per token of the tokenized label of length `> 2`,
carrying the prediction's probability and its 0-based position. -/
def buildPredictionWordsFrom (rank : Nat) : List Prediction → List PredictionWord
  | [] => []
  | pred :: rest =>
    ((tokenizeClassName pred.className).filter
        (fun word => decide (2 < strLen word))).map
      (fun word => ⟨word, pred.probability, rank⟩)
      ++ buildPredictionWordsFrom (rank + 1) rest

/-- The prediction index `predictionWords` of `calculateSimilarity`. -/
def buildPredictionWords (predictions : List Prediction) : List PredictionWord :=
  buildPredictionWordsFrom 0 predictions

/-- The guard of the substring branch shared by the tag and name loops:
`(a.includes(b) || b.includes(a)) && a.length > 3 && b.length > 3`. -/
def looseMatchB (a b : String) : Bool :=
  (strIncludes a b || strIncludes b a) && decide (3 < strLen a) && decide (3 < strLen b)

/-- One iteration of the innermost loop of the tag pass: given the current
`(score, matchedTags)` accumulator, process the pair of one tag token and
one prediction-index entry. -/
def tagStep (tag tagWord : String) (acc : ℚ × List String) (pw : PredictionWord) :
    ℚ × List String :=
  if tagWord = pw.word then
    (acc.1 + 100 * pw.probability * rankMultiplier pw.rank, acc.2 ++ [tag])
  else if looseMatchB tagWord pw.word then
    (acc.1 + 10 * pw.probability * rankMultiplier pw.rank,
      if tag ∈ acc.2 then acc.2 else acc.2 ++ [tag])
  else acc

/-- The `product.tags.forEach` pass of `calculateSimilarity`. -/
def tagPass (pws : List PredictionWord) (tags : List String) (acc : ℚ × List String) :
    ℚ × List String :=
  tags.foldl
    (fun acc tag =>
      (tokenizeClassName tag).foldl
        (fun acc tagWord => pws.foldl (tagStep tag tagWord) acc) acc)
    acc

/-- One iteration of the inner loop of the product-name pass. -/
def nameStep (nameWord : String) (acc : ℚ × List String) (pw : PredictionWord) :
    ℚ × List String :=
  if nameWord = pw.word then
    (acc.1 + 150 * pw.probability * rankMultiplier pw.rank, acc.2 ++ ["name:" ++ nameWord])
  else if looseMatchB nameWord pw.word then
    (acc.1 + 15 * pw.probability * rankMultiplier pw.rank,
      if ("name:" ++ nameWord) ∈ acc.2 then acc.2 else acc.2 ++ ["name:" ++ nameWord])
  else acc

/-- The `productNameWords.forEach` pass of `calculateSimilarity`. -/
def namePass (pws : List PredictionWord) (nameWords : List String) (acc : ℚ × List String) :
    ℚ × List String :=
  nameWords.foldl (fun acc nameWord => pws.foldl (nameStep nameWord) acc) acc

/-- The guard of the category loop:
`product.category.toLowerCase().includes(word) || word.includes(product.category.toLowerCase())`. -/
def categoryGateB (category word : String) : Bool :=
  strIncludes (strToLower category) word || strIncludes word (strToLower category)

/-- One iteration of the category loop (it only updates the score). -/
def categoryStep (category : String) (s : ℚ) (pw : PredictionWord) : ℚ :=
  if categoryGateB category pw.word then
    s + 5 * pw.probability * rankMultiplier pw.rank
  else s

/-- The category pass of `calculateSimilarity`. -/
def categoryPass (pws : List PredictionWord) (category : String) (s : ℚ) : ℚ :=
  pws.foldl (categoryStep category) s

/-- Model of `[...new Set(l)]`: deduplication keeping first occurrences. -/
def dedupFirstAux (seen : List String) : List String → List String
  | [] => []
  | a :: l => if a ∈ seen then dedupFirstAux seen l else a :: dedupFirstAux (a :: seen) l

/-- `calculateSimilarity` from `productMatcher.ts`: build the prediction
index, run the tag, name and category passes accumulating the score and the
matched tags, and return the `MatchScore` with deduplicated tags. -/
def calculateSimilarity (predictions : List Prediction) (product : Product) : MatchScore :=
  let predictionWords := buildPredictionWords predictions
  let accTags := tagPass predictionWords product.tags (0, [])
  let accName := namePass predictionWords (tokenizeClassName product.name) accTags
  let score := categoryPass predictionWords product.category accName.1
  { product := product, score := score, matchedTags := dedupFirstAux [] accName.2 }

/-! ## `findMatchingProducts` and the query filters -/

/-- The ranked (non-fallback) result of `findMatchingProducts`: score every
product, keep scores `≥ 100` (and `> 0`), sort by descending score, truncate
to `limit`, and project to the products. -/
def rankedMatches (predictions : List Prediction) (allProducts : List Product)
    (limit : Nat) : List Product :=
  let scoredProducts :=
    (allProducts.map (calculateSimilarity predictions)).filter
      (fun item => decide (100 ≤ item.score))
  ((((scoredProducts.filter (fun item => decide (0 < item.score))).insertionSort
      (fun a b => b.score ≤ a.score)).take limit).map
    (fun item => item.product))

/-- `findMatchingProducts` from `productMatcher.ts` (the `limit` parameter
defaults to 50 in the source): the ranked result, or the first `limit`
products of the catalog when the ranked result is empty. -/
def findMatchingProducts (predictions : List Prediction) (allProducts : List Product)
    (limit : Nat) : List Product :=
  let sortedProducts := rankedMatches predictions allProducts limit
  if sortedProducts.isEmpty then allProducts.take limit else sortedProducts

/-- `filterByCategory` from `productMatcher.ts`: `!category` is true exactly
for the empty string here, so the filter is bypassed for `""` and `"all"`. -/
def filterByCategory (products : List Product) (category : String) : List Product :=
  if category = "" ∨ category = "all" then products
  else products.filter (fun product => product.category == category)

/-! ## Per-pair contribution functions

The score component of each loop step above, isolated per
`(fieldToken, predictionToken)` pair.  The lemmas that follow prove that the
score computed by `calculateSimilarity` is the sum of these contributions. -/

/-- Score contribution of one (tag token, index entry) pair. -/
def tagPairScore (tagWord : String) (pw : PredictionWord) : ℚ :=
  if tagWord = pw.word then 100 * pw.probability * rankMultiplier pw.rank
  else if looseMatchB tagWord pw.word then 10 * pw.probability * rankMultiplier pw.rank
  else 0

/-- Score contribution of one (name token, index entry) pair. -/
def namePairScore (nameWord : String) (pw : PredictionWord) : ℚ :=
  if nameWord = pw.word then 150 * pw.probability * rankMultiplier pw.rank
  else if looseMatchB nameWord pw.word then 15 * pw.probability * rankMultiplier pw.rank
  else 0

/-- Score contribution of one (category, index entry) pair. -/
def categoryPairScore (category : String) (pw : PredictionWord) : ℚ :=
  if categoryGateB category pw.word then 5 * pw.probability * rankMultiplier pw.rank
  else 0

/-- Total tag-pass contribution of one tag against the whole index. -/
def tagFieldScore (pws : List PredictionWord) (tag : String) : ℚ :=
  ((tokenizeClassName tag).map (fun tagWord => (pws.map (tagPairScore tagWord)).sum)).sum

/-- Total tag-pass contribution of all tags. -/
def tagsScore (pws : List PredictionWord) (tags : List String) : ℚ :=
  (tags.map (tagFieldScore pws)).sum

/-- Total name-pass contribution. -/
def nameScore (pws : List PredictionWord) (nameWords : List String) : ℚ :=
  (nameWords.map (fun nameWord => (pws.map (namePairScore nameWord)).sum)).sum

/-- Total category-pass contribution. -/
def categoryScore (pws : List PredictionWord) (category : String) : ℚ :=
  (pws.map (categoryPairScore category)).sum

/-! ## Score characterisation lemmas -/

theorem foldl_fst_add {α : Type} (g : ℚ × List String → α → ℚ × List String)
    (f : α → ℚ) (hg : ∀ acc a, (g acc a).1 = acc.1 + f a) :
    ∀ (l : List α) (acc : ℚ × List String),
      (l.foldl g acc).1 = acc.1 + (l.map f).sum := by
  intro l
  induction l with
  | nil => intro acc; simp
  | cons a l ih =>
    intro acc
    simp only [List.foldl_cons, List.map_cons, List.sum_cons]
    rw [ih, hg]
    ring

theorem tagStep_fst (tag tagWord : String) (acc : ℚ × List String) (pw : PredictionWord) :
    (tagStep tag tagWord acc pw).1 = acc.1 + tagPairScore tagWord pw := by
  simp only [tagStep, tagPairScore]
  split
  · rfl
  · split
    · rfl
    · simp

theorem nameStep_fst (nameWord : String) (acc : ℚ × List String) (pw : PredictionWord) :
    (nameStep nameWord acc pw).1 = acc.1 + namePairScore nameWord pw := by
  simp only [nameStep, namePairScore]
  split
  · rfl
  · split
    · rfl
    · simp

theorem tagPass_fst (pws : List PredictionWord) (tags : List String)
    (acc : ℚ × List String) :
    (tagPass pws tags acc).1 = acc.1 + tagsScore pws tags := by
  unfold tagPass tagsScore
  refine foldl_fst_add _ _ (fun acc tag => ?_) tags acc
  unfold tagFieldScore
  refine foldl_fst_add _ _ (fun acc tagWord => ?_) (tokenizeClassName tag) acc
  exact foldl_fst_add _ _ (tagStep_fst tag tagWord) pws acc

theorem namePass_fst (pws : List PredictionWord) (nameWords : List String)
    (acc : ℚ × List String) :
    (namePass pws nameWords acc).1 = acc.1 + nameScore pws nameWords := by
  unfold namePass nameScore
  refine foldl_fst_add _ _ (fun acc nameWord => ?_) nameWords acc
  exact foldl_fst_add _ _ (nameStep_fst nameWord) pws acc

theorem categoryPass_eq (pws : List PredictionWord) (category : String) (s : ℚ) :
    categoryPass pws category s = s + categoryScore pws category := by
  unfold categoryPass categoryScore
  induction pws generalizing s with
  | nil => simp
  | cons pw pws ih =>
    simp only [List.foldl_cons, List.map_cons, List.sum_cons]
    rw [ih]
    unfold categoryStep categoryPairScore
    split
    · ring
    · ring

/-- The score returned by `calculateSimilarity` is the sum of the pairwise
contributions of the tag, name and category passes. -/
theorem calculateSimilarity_score (predictions : List Prediction) (product : Product) :
    (calculateSimilarity predictions product).score =
      tagsScore (buildPredictionWords predictions) product.tags
        + nameScore (buildPredictionWords predictions) (tokenizeClassName product.name)
        + categoryScore (buildPredictionWords predictions) product.category := by
  unfold calculateSimilarity
  simp only [categoryPass_eq, namePass_fst, tagPass_fst]
  ring

theorem calculateSimilarity_product (predictions : List Prediction) (product : Product) :
    (calculateSimilarity predictions product).product = product := rfl

/-! ## Positivity and nonnegativity lemmas -/

theorem rankMultiplier_pos (rank : Nat) : 0 < rankMultiplier rank := by
  unfold rankMultiplier
  split_ifs <;> norm_num

theorem tagPairScore_nonneg (tagWord : String) (pw : PredictionWord)
    (h : 0 ≤ pw.probability) : 0 ≤ tagPairScore tagWord pw := by
  unfold tagPairScore
  split_ifs <;>
    first
      | exact mul_nonneg (mul_nonneg (by norm_num) h) (rankMultiplier_pos _).le
      | norm_num

theorem namePairScore_nonneg (nameWord : String) (pw : PredictionWord)
    (h : 0 ≤ pw.probability) : 0 ≤ namePairScore nameWord pw := by
  unfold namePairScore
  split_ifs <;>
    first
      | exact mul_nonneg (mul_nonneg (by norm_num) h) (rankMultiplier_pos _).le
      | norm_num

theorem categoryPairScore_nonneg (category : String) (pw : PredictionWord)
    (h : 0 ≤ pw.probability) : 0 ≤ categoryPairScore category pw := by
  unfold categoryPairScore
  split_ifs <;>
    first
      | exact mul_nonneg (mul_nonneg (by norm_num) h) (rankMultiplier_pos _).le
      | norm_num

/-! ## Empty prediction list scores -/

theorem sum_map_zero {α : Type} (l : List α) : (l.map (fun _ => (0 : ℚ))).sum = 0 := by
  induction l with
  | nil => simp
  | cons a l ih => simp [ih]

theorem tagsScore_nil_index (tags : List String) : tagsScore [] tags = 0 := by
  unfold tagsScore tagFieldScore
  simp only [List.map_nil, List.sum_nil]
  rw [show (fun tag => ((tokenizeClassName tag).map (fun _ => (0 : ℚ))).sum)
        = (fun tag : String => (0 : ℚ)) from funext (fun tag => sum_map_zero _)]
  exact sum_map_zero tags

theorem nameScore_nil_index (nameWords : List String) : nameScore [] nameWords = 0 := by
  unfold nameScore
  simp only [List.map_nil, List.sum_nil]
  exact sum_map_zero nameWords

theorem categoryScore_nil_index (category : String) : categoryScore [] category = 0 := by
  unfold categoryScore
  simp

/-- With no predictions, every product's similarity score is `0`. -/
theorem calculateSimilarity_nil_predictions (product : Product) :
    (calculateSimilarity [] product).score = 0 := by
  rw [calculateSimilarity_score]
  show tagsScore [] _ + nameScore [] _ + categoryScore [] _ = 0
  rw [tagsScore_nil_index, nameScore_nil_index, categoryScore_nil_index]
  norm_num

theorem rankedMatches_nil_predictions (allProducts : List Product) (limit : Nat) :
    rankedMatches [] allProducts limit = [] := by
  unfold rankedMatches
  rw [List.filter_eq_nil_iff.mpr ?_]
  · simp
  · intro item hitem
    obtain ⟨q, _, rfl⟩ := List.mem_map.mp hitem
    simp [calculateSimilarity_nil_predictions]

/-- C1: with an empty prediction list every product scores `0`, the filtered
result is empty, and the fallback path returns the first
`min(limit, |catalog|)` catalog items in their original input order. -/
theorem findMatchingProducts_nil_predictions (allProducts : List Product) (limit : Nat) :
    findMatchingProducts [] allProducts limit = allProducts.take limit ∧
      (findMatchingProducts [] allProducts limit).length = min limit allProducts.length := by
  have h : findMatchingProducts [] allProducts limit = allProducts.take limit := by
    unfold findMatchingProducts
    rw [rankedMatches_nil_predictions]
    rfl
  exact ⟨h, by rw [h, List.length_take]⟩

/-- C9: the result of `findMatchingProducts` never exceeds `limit` items, on
the ranked path and on the fallback path alike. -/
theorem findMatchingProducts_length_le_limit (predictions : List Prediction)
    (allProducts : List Product) (limit : Nat) :
    (findMatchingProducts predictions allProducts limit).length ≤ limit := by
  unfold findMatchingProducts
  simp only []
  split
  · rw [List.length_take]
    exact Nat.min_le_left _ _
  · unfold rankedMatches
    rw [List.length_map, List.length_take]
    exact Nat.min_le_left _ _

/-! ## The score threshold of the ranked path -/

/-- Every product on the ranked (non-fallback) path passed the `score >= 100`
filter. -/
theorem rankedMatches_mem_score (predictions : List Prediction)
    (allProducts : List Product) (limit : Nat) (p : Product)
    (hp : p ∈ rankedMatches predictions allProducts limit) :
    100 ≤ (calculateSimilarity predictions p).score := by
  unfold rankedMatches at hp
  obtain ⟨item, hitem, rfl⟩ := List.mem_map.mp hp
  have h1 : item ∈ (((allProducts.map (calculateSimilarity predictions)).filter
      (fun item => decide (100 ≤ item.score))).filter
        (fun item => decide (0 < item.score))) :=
    ((List.perm_insertionSort _ _).mem_iff).mp (List.mem_of_mem_take hitem)
  have h2 := (List.mem_filter.mp h1).1
  have h3 := (List.mem_filter.mp h2).2
  obtain ⟨q, _, rfl⟩ := List.mem_map.mp (List.mem_filter.mp h2).1
  rw [calculateSimilarity_product]
  exact of_decide_eq_true h3

/-- C2: whenever the filtered result is nonempty (the non-fallback path),
every product returned by `findMatchingProducts` has similarity score at
least `100`; consequently an item scoring below `100` never appears there. -/
theorem findMatchingProducts_score_ge_100 (predictions : List Prediction)
    (allProducts : List Product) (limit : Nat)
    (hne : rankedMatches predictions allProducts limit ≠ []) :
    ∀ p ∈ findMatchingProducts predictions allProducts limit,
      100 ≤ (calculateSimilarity predictions p).score := by
  intro p hp
  apply rankedMatches_mem_score predictions allProducts limit
  unfold findMatchingProducts at hp
  rwa [if_neg (by simpa [List.isEmpty_iff] using hne)] at hp

/-- A concrete run taken through the ranked path: one exactly matching
prediction, whose score is `5000`. -/
theorem calcSim_example :
    (calculateSimilarity [⟨"mug", 1⟩] ⟨"Mug", "kitchen", ["mug"]⟩).score = 5000 := by
  have h1 : buildPredictionWords [⟨"mug", 1⟩] = [⟨"mug", 1, 0⟩, ⟨"mug", 1, 0⟩] := by decide
  have h2 : tokenizeClassName "mug" = ["mug", "mug"] := by decide
  have h3 : tokenizeClassName "Mug" = ["mug", "mug"] := by decide
  have h4 : categoryGateB "kitchen" "mug" = false := by decide
  rw [calculateSimilarity_score, h1]
  show tagsScore _ ["mug"] + nameScore _ (tokenizeClassName "Mug") + categoryScore _ "kitchen" = 5000
  rw [h3]
  unfold tagsScore tagFieldScore nameScore categoryScore
  simp only [List.map_cons, List.map_nil, List.sum_cons, List.sum_nil, h2]
  norm_num [tagPairScore, namePairScore, categoryPairScore, rankMultiplier, h4]

theorem rankedMatches_example :
    rankedMatches [⟨"mug", 1⟩] [⟨"Mug", "kitchen", ["mug"]⟩] 5 ≠ [] := by
  have hs : (calculateSimilarity [⟨"mug", 1⟩] ⟨"Mug", "kitchen", ["mug"]⟩).score = 5000 :=
    calcSim_example
  unfold rankedMatches
  simp only [List.map_cons, List.map_nil, List.filter_cons, List.filter_nil, hs]
  norm_num [List.filter_cons, List.filter_nil, hs, List.insertionSort, List.orderedInsert]

/-- Witness for C2 at the concrete run above. -/
theorem findMatchingProducts_score_ge_100_witness :
    rankedMatches [⟨"mug", 1⟩] [⟨"Mug", "kitchen", ["mug"]⟩] 5 ≠ [] ∧
      ∀ p ∈ findMatchingProducts [⟨"mug", 1⟩] [⟨"Mug", "kitchen", ["mug"]⟩] 5,
        100 ≤ (calculateSimilarity [⟨"mug", 1⟩] p).score :=
  ⟨rankedMatches_example,
    findMatchingProducts_score_ge_100 _ _ _ rankedMatches_example⟩

/-! ## Base weights and rank decay (the specification's `rankWeight`) -/

/-- The specification's rank-decay function:
`rankWeight(rank) = 5 if rank==0, 4 if rank==1, 3 if rank==2, else 2`. -/
def rankWeight (rank : Nat) : ℚ :=
  if rank = 0 then 5 else if rank = 1 then 4 else if rank = 2 then 3 else 2

theorem rankMultiplier_eq_rankWeight (rank : Nat) :
    rankMultiplier rank = rankWeight rank := rfl

/-- C3: each matching pair contributes `base * confidence * rankWeight(rank)`,
with base `100`/`10` for exact/partial tag matches, `150`/`15` for
exact/partial name matches, and a flat `5` for category containment. -/
theorem pairScore_base_weights (ft nw cat : String) (pw : PredictionWord) :
    (ft = pw.word → tagPairScore ft pw = 100 * pw.probability * rankWeight pw.rank) ∧
      (ft ≠ pw.word → looseMatchB ft pw.word = true →
        tagPairScore ft pw = 10 * pw.probability * rankWeight pw.rank) ∧
      (nw = pw.word → namePairScore nw pw = 150 * pw.probability * rankWeight pw.rank) ∧
      (nw ≠ pw.word → looseMatchB nw pw.word = true →
        namePairScore nw pw = 15 * pw.probability * rankWeight pw.rank) ∧
      (categoryGateB cat pw.word = true →
        categoryPairScore cat pw = 5 * pw.probability * rankWeight pw.rank) := by
  rw [← rankMultiplier_eq_rankWeight]
  refine ⟨fun h => ?_, fun h1 h2 => ?_, fun h => ?_, fun h1 h2 => ?_, fun h => ?_⟩
  · rw [tagPairScore, if_pos h]
  · rw [tagPairScore, if_neg h1, if_pos h2]
  · rw [namePairScore, if_pos h]
  · rw [namePairScore, if_neg h1, if_pos h2]
  · rw [categoryPairScore, if_pos h]

/-- Witness for C3: all five contribution cases exercised at rank 0 with
probability 1. -/
theorem pairScore_base_weights_witness :
    tagPairScore "coffee" ⟨"coffee", 1, 0⟩ = 100 * 1 * rankWeight 0 ∧
      tagPairScore "coffeemugs" ⟨"coffee", 1, 0⟩ = 10 * 1 * rankWeight 0 ∧
      namePairScore "coffee" ⟨"coffee", 1, 0⟩ = 150 * 1 * rankWeight 0 ∧
      namePairScore "coffeemugs" ⟨"coffee", 1, 0⟩ = 15 * 1 * rankWeight 0 ∧
      categoryPairScore "coffee" ⟨"coffee", 1, 0⟩ = 5 * 1 * rankWeight 0 :=
  ⟨(pairScore_base_weights "coffee" "x" "x" ⟨"coffee", 1, 0⟩).1 rfl,
    (pairScore_base_weights "coffeemugs" "x" "x" ⟨"coffee", 1, 0⟩).2.1
      (by decide) (by decide),
    (pairScore_base_weights "x" "coffee" "x" ⟨"coffee", 1, 0⟩).2.2.1 rfl,
    (pairScore_base_weights "x" "coffeemugs" "x" ⟨"coffee", 1, 0⟩).2.2.2.1
      (by decide) (by decide),
    (pairScore_base_weights "x" "x" "coffee" ⟨"coffee", 1, 0⟩).2.2.2.2
      (by decide)⟩

/-! ## The substring-match gate -/

/-- C6: with positive confidence, a tag or name pair contributes the partial
(substring) base value exactly when the two tokens are different, one
contains the other, and both are longer than three characters. -/
theorem loose_match_gate_iff (ft pt : String) (conf : ℚ) (r : Nat) (hconf : 0 < conf) :
    (tagPairScore ft ⟨pt, conf, r⟩ = 10 * conf * rankMultiplier r ↔
        ft ≠ pt ∧ (strIncludes ft pt = true ∨ strIncludes pt ft = true) ∧
          3 < strLen ft ∧ 3 < strLen pt) ∧
      (namePairScore ft ⟨pt, conf, r⟩ = 15 * conf * rankMultiplier r ↔
        ft ≠ pt ∧ (strIncludes ft pt = true ∨ strIncludes pt ft = true) ∧
          3 < strLen ft ∧ 3 < strLen pt) := by
  have hrm : 0 < rankMultiplier r := rankMultiplier_pos r
  have hgate : looseMatchB ft pt = true ↔
      ((strIncludes ft pt = true ∨ strIncludes pt ft = true) ∧
        3 < strLen ft ∧ 3 < strLen pt) := by
    unfold looseMatchB
    simp [Bool.and_eq_true, Bool.or_eq_true, and_assoc]
  constructor
  · unfold tagPairScore
    split_ifs with h1 h2
    · simp only [h1, ne_eq, not_true_eq_false, false_and, iff_false]
      intro hcontra
      have : (10 : ℚ) * conf * rankMultiplier r < 100 * conf * rankMultiplier r := by
        have := mul_lt_mul_of_pos_right (mul_lt_mul_of_pos_right
          (show (10 : ℚ) < 100 by norm_num) hconf) hrm
        simpa using this
      exact absurd hcontra (ne_of_gt this)
    · simp only [eq_self_iff_true, true_iff, ne_eq, h1, not_false_iff, true_and]
      exact hgate.mp h2
    · rw [iff_iff_implies_and_implies]
      constructor
      · intro hcontra
        have : (0 : ℚ) < 10 * conf * rankMultiplier r := by positivity
        exact absurd hcontra.symm (ne_of_gt this)
      · intro hc
        exact absurd (hgate.mpr hc.2) h2
  · unfold namePairScore
    split_ifs with h1 h2
    · simp only [h1, ne_eq, not_true_eq_false, false_and, iff_false]
      intro hcontra
      have : (15 : ℚ) * conf * rankMultiplier r < 150 * conf * rankMultiplier r := by
        have := mul_lt_mul_of_pos_right (mul_lt_mul_of_pos_right
          (show (15 : ℚ) < 150 by norm_num) hconf) hrm
        simpa using this
      exact absurd hcontra (ne_of_gt this)
    · simp only [eq_self_iff_true, true_iff, ne_eq, h1, not_false_iff, true_and]
      exact hgate.mp h2
    · rw [iff_iff_implies_and_implies]
      constructor
      · intro hcontra
        have : (0 : ℚ) < 15 * conf * rankMultiplier r := by positivity
        exact absurd hcontra.symm (ne_of_gt this)
      · intro hc
        exact absurd (hgate.mpr hc.2) h2

/-- Witness for C6: a genuine substring pair (`"coffeemugs"` ⊇ `"coffee"`)
contributes the partial base, and an equal pair does not. -/
theorem loose_match_gate_iff_witness :
    (0 : ℚ) < 1 ∧
      tagPairScore "coffeemugs" ⟨"coffee", 1, 0⟩ = 10 * 1 * rankMultiplier 0 ∧
      ¬ (tagPairScore "coffee" ⟨"coffee", 1, 0⟩ = 10 * 1 * rankMultiplier 0) :=
  ⟨by decide,
    (loose_match_gate_iff "coffeemugs" "coffee" 1 0 (by decide)).1.mpr
      ⟨by decide, by decide, by decide, by decide⟩,
    fun hc => by
      have := (loose_match_gate_iff "coffee" "coffee" 1 0 (by decide)).1.mp hc
      exact this.1 rfl⟩

/-! ## Rank sensitivity -/

theorem tagPairScore_exact (w : String) (conf : ℚ) (r : Nat) :
    tagPairScore w ⟨w, conf, r⟩ = 100 * conf * rankMultiplier r := by
  rw [tagPairScore, if_pos rfl]

theorem namePairScore_exact (w : String) (conf : ℚ) (r : Nat) :
    namePairScore w ⟨w, conf, r⟩ = 150 * conf * rankMultiplier r := by
  rw [namePairScore, if_pos rfl]

/-- Counterexample to C4 as stated: ranks `3` and `4` carry the same
multiplier `2`, so with identical confidence `1` and the same matching token
the rank-3 prediction does **not** contribute strictly more than the rank-4
one (both contribute `200`). -/
theorem rank_sensitivity_cex :
    tagPairScore "coffee" ⟨"coffee", 1, 3⟩ = tagPairScore "coffee" ⟨"coffee", 1, 4⟩ ∧
      ¬ (tagPairScore "coffee" ⟨"coffee", 1, 4⟩ < tagPairScore "coffee" ⟨"coffee", 1, 3⟩) := by
  rw [tagPairScore_exact, tagPairScore_exact]
  norm_num [rankMultiplier]

theorem rankMultiplier_lt (r1 r2 : Nat) (h12 : r1 < r2) (h3 : r1 < 3) :
    rankMultiplier r2 < rankMultiplier r1 := by
  unfold rankMultiplier
  split_ifs <;> first | omega | norm_num

/-- C4 (amended): with identical positive confidence and the same matching
token, a prediction at rank `r1 < r2` contributes strictly more than the one
at rank `r2` provided `r1 < 3`; from rank `3` onwards the multiplier is the
constant `2` and the contributions tie. -/
theorem rank_sensitivity_strict (w : String) (conf : ℚ) (r1 r2 : Nat)
    (h12 : r1 < r2) (h3 : r1 < 3) (hconf : 0 < conf) :
    tagPairScore w ⟨w, conf, r2⟩ < tagPairScore w ⟨w, conf, r1⟩ ∧
      namePairScore w ⟨w, conf, r2⟩ < namePairScore w ⟨w, conf, r1⟩ := by
  have hm := rankMultiplier_lt r1 r2 h12 h3
  constructor
  · rw [tagPairScore_exact, tagPairScore_exact, mul_assoc, mul_assoc]
    exact mul_lt_mul_of_pos_left (mul_lt_mul_of_pos_left hm hconf) (by norm_num)
  · rw [namePairScore_exact, namePairScore_exact, mul_assoc, mul_assoc]
    exact mul_lt_mul_of_pos_left (mul_lt_mul_of_pos_left hm hconf) (by norm_num)

/-- Witness for the amended C4 at ranks `0 < 3` with confidence `1`. -/
theorem rank_sensitivity_strict_witness :
    ((0 : Nat) < 3 ∧ (0 : ℚ) < 1) ∧
      tagPairScore "coffee" ⟨"coffee", 1, 3⟩ < tagPairScore "coffee" ⟨"coffee", 1, 0⟩ ∧
      namePairScore "coffee" ⟨"coffee", 1, 3⟩ < namePairScore "coffee" ⟨"coffee", 1, 0⟩ :=
  ⟨⟨by decide, by decide⟩,
    rank_sensitivity_strict "coffee" 1 0 3 (by decide) (by decide) (by decide)⟩

/-! ## The category filter -/

/-- Counterexample to C8 as stated: for the empty-string category the code
bypasses the filter (JavaScript `!category` is true for `""`), returning the
whole input instead of only the products whose category is `""`. -/
theorem filterByCategory_cex :
    ("" : String) ≠ "all" ∧
      filterByCategory [⟨"Mug", "kitchen", ["mug"]⟩] "" ≠
        ([⟨"Mug", "kitchen", ["mug"]⟩] : List Product).filter
          (fun product => product.category == "") := by
  constructor
  · decide
  · decide

/-- C8 (amended): for a category other than the sentinels `""` and `"all"`,
`filterByCategory` returns exactly the products with that (case-sensitively)
equal category; both `"all"` and `""` are no-ops returning the input. -/
theorem filterByCategory_eq_filter (products : List Product) (category : String)
    (h1 : category ≠ "") (h2 : category ≠ "all") :
    filterByCategory products category =
        products.filter (fun product => product.category == category) ∧
      filterByCategory products "all" = products ∧
      filterByCategory products "" = products := by
  refine ⟨?_, ?_, ?_⟩
  · rw [filterByCategory, if_neg (by simp [h1, h2])]
  · rw [filterByCategory, if_pos (by simp)]
  · rw [filterByCategory, if_pos (by simp)]

/-- Witness for the amended C8 at category `"kitchen"`. -/
theorem filterByCategory_eq_filter_witness :
    (("kitchen" : String) ≠ "" ∧ ("kitchen" : String) ≠ "all") ∧
      filterByCategory [⟨"Mug", "kitchen", ["mug"]⟩, ⟨"Pot", "garden", []⟩] "kitchen" =
          ([⟨"Mug", "kitchen", ["mug"]⟩, ⟨"Pot", "garden", []⟩] : List Product).filter
            (fun product => product.category == "kitchen") ∧
        filterByCategory [⟨"Mug", "kitchen", ["mug"]⟩, ⟨"Pot", "garden", []⟩] "all" =
          [⟨"Mug", "kitchen", ["mug"]⟩, ⟨"Pot", "garden", []⟩] ∧
        filterByCategory [⟨"Mug", "kitchen", ["mug"]⟩, ⟨"Pot", "garden", []⟩] "" =
          [⟨"Mug", "kitchen", ["mug"]⟩, ⟨"Pot", "garden", []⟩] :=
  ⟨⟨by decide, by decide⟩,
    filterByCategory_eq_filter [⟨"Mug", "kitchen", ["mug"]⟩, ⟨"Pot", "garden", []⟩]
      "kitchen" (by decide) (by decide)⟩

/-! ## Structure of the prediction index -/

theorem buildPredictionWordsFrom_rank_bounds (preds : List Prediction) :
    ∀ (n : Nat), ∀ pw ∈ buildPredictionWordsFrom n preds,
      n ≤ pw.rank ∧ pw.rank < n + preds.length := by
  induction preds with
  | nil => intro n pw hpw; simp [buildPredictionWordsFrom] at hpw
  | cons p ps ih =>
    intro n pw hpw
    rw [buildPredictionWordsFrom] at hpw
    rcases List.mem_append.mp hpw with hl | hr
    · obtain ⟨w, _, rfl⟩ := List.mem_map.mp hl
      simp only [List.length_cons]
      omega
    · have := ih (n + 1) pw hr
      simp only [List.length_cons]
      omega

theorem buildPredictionWordsFrom_filter (preds : List Prediction) :
    ∀ (n i : Nat) (h : i < preds.length),
      (buildPredictionWordsFrom n preds).filter (fun pw => pw.rank == n + i) =
        ((tokenizeClassName (preds.get ⟨i, h⟩).className).filter
            (fun w => decide (2 < strLen w))).map
          (fun w => ⟨w, (preds.get ⟨i, h⟩).probability, n + i⟩) := by
  induction preds with
  | nil => intro n i h; simp at h
  | cons p ps ih =>
    intro n i h
    rw [buildPredictionWordsFrom, List.filter_append]
    cases i with
    | zero =>
      have hblock :
          ((((tokenizeClassName p.className).filter
              (fun w => decide (2 < strLen w))).map
            (fun w => (⟨w, p.probability, n⟩ : PredictionWord))).filter
              (fun pw => pw.rank == n + 0)) =
            (((tokenizeClassName p.className).filter
              (fun w => decide (2 < strLen w))).map
            (fun w => (⟨w, p.probability, n + 0⟩ : PredictionWord))) := by
        rw [List.filter_map]
        simp
      have hrest :
          ((buildPredictionWordsFrom (n + 1) ps).filter
            (fun pw => pw.rank == n + 0)) = [] := by
        rw [List.filter_eq_nil_iff]
        intro pw hpw
        have := buildPredictionWordsFrom_rank_bounds ps (n + 1) pw hpw
        simp only [beq_iff_eq]
        omega
      rw [hblock, hrest, List.append_nil]
      rfl
    | succ j =>
      have hblock :
          ((((tokenizeClassName p.className).filter
              (fun w => decide (2 < strLen w))).map
            (fun w => (⟨w, p.probability, n⟩ : PredictionWord))).filter
              (fun pw => pw.rank == n + (j + 1))) = [] := by
        rw [List.filter_map, List.filter_eq_nil_iff.mpr, List.map_nil]
        intro w _
        simp only [Function.comp_apply, beq_iff_eq]
        omega
      have heq : n + (j + 1) = (n + 1) + j := by omega
      rw [hblock, List.nil_append, heq, ih (n + 1) j (by simpa using h)]
      rfl

/-- C7: the prediction index restricted to rank `i` is exactly one entry per
token of the tokenized `i`-th label of length `> 2`, each carrying that
prediction's probability and the rank `i`; and every index entry's rank is a
valid prediction position. -/
theorem buildPredictionWords_rank_entries (preds : List Prediction) :
    (∀ (i : Nat) (h : i < preds.length),
      (buildPredictionWords preds).filter (fun pw => pw.rank == i) =
        ((tokenizeClassName (preds.get ⟨i, h⟩).className).filter
            (fun w => decide (2 < strLen w))).map
          (fun w => ⟨w, (preds.get ⟨i, h⟩).probability, i⟩)) ∧
      ∀ pw ∈ buildPredictionWords preds, pw.rank < preds.length := by
  constructor
  · intro i h
    have := buildPredictionWordsFrom_filter preds 0 i h
    simpa using this
  · intro pw hpw
    have := buildPredictionWordsFrom_rank_bounds preds 0 pw hpw
    omega

/-- Witness for C7: the label `"coffee mug"` yields the whole phrase and its
two words, all at rank `0` with its probability. -/
theorem buildPredictionWords_rank_entries_witness :
    (0 : Nat) < ([⟨"coffee mug", 1⟩] : List Prediction).length ∧
      (buildPredictionWords [⟨"coffee mug", 1⟩]).filter (fun pw => pw.rank == 0) =
        [⟨"coffee mug", 1, 0⟩, ⟨"coffee", 1, 0⟩, ⟨"mug", 1, 0⟩] := by
  refine ⟨by decide, ?_⟩
  rw [(buildPredictionWords_rank_entries [⟨"coffee mug", 1⟩]).1 0 (by decide)]
  decide

/-! ## Structure of the tokenizer on single-word inputs -/

theorem toNat_lowerChar (c : Char) :
    (lowerChar c).toNat =
      if 65 ≤ c.toNat ∧ c.toNat ≤ 90 then c.toNat + 32 else c.toNat := by
  unfold lowerChar
  split_ifs <;> rfl

theorem isWsChar_lowerChar (c : Char) : isWsChar (lowerChar c) = isWsChar c := by
  unfold isWsChar
  rw [toNat_lowerChar]
  split_ifs with h
  · rw [show ((c.toNat + 32 == 32) || (c.toNat + 32 == 9) || (c.toNat + 32 == 10)
          || (c.toNat + 32 == 13)) = false from by
        simp only [Bool.or_eq_false_iff, beq_eq_false_iff_ne, ne_eq]
        omega,
      show ((c.toNat == 32) || (c.toNat == 9) || (c.toNat == 10)
          || (c.toNat == 13)) = false from by
        simp only [Bool.or_eq_false_iff, beq_eq_false_iff_ne, ne_eq]
        omega]
  · rfl

theorem isSepChar_lowerChar (c : Char) : isSepChar (lowerChar c) = isSepChar c := by
  unfold isSepChar
  rw [isWsChar_lowerChar, toNat_lowerChar]
  split_ifs with h
  · rw [show (c.toNat + 32 == 44) = false from by
        simp only [beq_eq_false_iff_ne, ne_eq]
        omega,
      show (c.toNat == 44) = false from by
        simp only [beq_eq_false_iff_ne, ne_eq]
        omega]
  · rfl

theorem isSepChar_of_isWsChar (c : Char) (h : isWsChar c = true) :
    isSepChar c = true := by
  unfold isSepChar
  rw [h, Bool.true_or]

theorem isWsChar_eq_false_of_not_sep (c : Char) (h : isSepChar c = false) :
    isWsChar c = false := by
  unfold isSepChar at h
  exact (Bool.or_eq_false_iff.mp h).1

theorem splitChars_ne_nil (l : List Char) : splitChars l ≠ [] := by
  induction l with
  | nil => simp [splitChars]
  | cons c cs ih =>
    rw [splitChars]
    rcases h : splitChars cs with _ | ⟨w, ws⟩
    · split_ifs <;> simp
    · split_ifs <;> simp

theorem splitChars_cons_of_eq (c : Char) (cs w : List Char) (ws : List (List Char))
    (h : splitChars cs = w :: ws) :
    splitChars (c :: cs) = if isSepChar c then [] :: w :: ws else (c :: w) :: ws := by
  rw [splitChars, h]

theorem splitChars_sep_prefix (a r : List Char) (ha : ∀ c ∈ a, isSepChar c = true) :
    splitChars (a ++ r) = List.replicate a.length [] ++ splitChars r := by
  induction a with
  | nil => simp
  | cons c cs ih =>
    obtain ⟨w, ws, h⟩ := List.exists_cons_of_ne_nil (splitChars_ne_nil (cs ++ r))
    rw [List.cons_append, splitChars_cons_of_eq c _ _ _ h,
      if_pos (ha c (List.mem_cons_self _ _)), ← h,
      ih (fun d hd => ha d (List.mem_cons_of_mem _ hd))]
    simp [List.replicate_succ]

theorem splitChars_append_sepFree (m : List Char) (hm : ∀ c ∈ m, isSepChar c = false)
    (r w : List Char) (ws : List (List Char)) (hr : splitChars r = w :: ws) :
    splitChars (m ++ r) = (m ++ w) :: ws := by
  induction m with
  | nil => simpa using hr
  | cons c cs ih =>
    have hrec : splitChars (cs ++ r) = (cs ++ w) :: ws :=
      ih (fun d hd => hm d (List.mem_cons_of_mem _ hd))
    rw [List.cons_append, splitChars_cons_of_eq c _ _ _ hrec,
      if_neg (by rw [hm c (List.mem_cons_self _ _)]; exact Bool.false_ne_true)]
    rfl

theorem splitChars_allSep (b : List Char) (hb : ∀ c ∈ b, isSepChar c = true) :
    splitChars b = List.replicate b.length [] ++ [[]] := by
  have := splitChars_sep_prefix b [] hb
  simpa [splitChars] using this

theorem dropWhile_eq_self_of_all {α : Type} (p : α → Bool) (l : List α)
    (h : ∀ c ∈ l, p c = false) : l.dropWhile p = l := by
  cases l with
  | nil => rfl
  | cons c cs =>
    rw [List.dropWhile_cons, h c (List.mem_cons_self _ _)]
    simp

theorem trimChars_eq_self (m : List Char) (hm : ∀ c ∈ m, isWsChar c = false) :
    trimChars m = m := by
  unfold trimChars
  rw [dropWhile_eq_self_of_all _ _ hm,
    dropWhile_eq_self_of_all _ _ (fun c hc => hm c (List.mem_reverse.mp hc)),
    List.reverse_reverse]

theorem trimChars_decomp (l : List Char) :
    ∃ a b, l = a ++ trimChars l ++ b ∧ (∀ c ∈ a, isWsChar c = true) ∧
      ∀ c ∈ b, isWsChar c = true := by
  refine ⟨l.takeWhile isWsChar,
    ((l.dropWhile isWsChar).reverse.takeWhile isWsChar).reverse, ?_, ?_, ?_⟩
  · conv_lhs => rw [← List.takeWhile_append_dropWhile (p := isWsChar) (l := l)]
    rw [List.append_assoc]
    congr 1
    conv_lhs => rw [← List.reverse_reverse (l.dropWhile isWsChar),
      ← List.takeWhile_append_dropWhile (p := isWsChar)
        (l := (l.dropWhile isWsChar).reverse)]
    rw [List.reverse_append]
    rfl
  · exact fun c hc => List.mem_takeWhile_imp hc
  · exact fun c hc => List.mem_takeWhile_imp (List.mem_reverse.mp hc)

/-- C10: a trimmed input with no whitespace/comma separators tokenizes to its
lower-cased form twice (once as the whole-string head, once as the single
split part), so an exact match of such a single-word tag against one
prediction-index entry contributes `100 * confidence * rankWeight(rank)`
twice. -/
theorem tokenizeClassName_single_word (s : String)
    (hsep : ∀ c ∈ (strTrim s).toList, isSepChar c = false)
    (hne : strTrim s ≠ "") :
    tokenizeClassName s = [strToLower (strTrim s), strToLower (strTrim s)] ∧
      ∀ (conf : ℚ) (r : Nat),
        ((tokenizeClassName s).map
            (fun tw => tagPairScore tw ⟨strToLower (strTrim s), conf, r⟩)).sum =
          2 * (100 * conf * rankWeight r) := by
  have hm_sep : ∀ c ∈ trimChars s.toList, isSepChar c = false := hsep
  have hm_ne : trimChars s.toList ≠ [] := by
    intro h
    apply hne
    show (⟨trimChars s.toList⟩ : String) = ""
    rw [h]
  obtain ⟨a, b, hdec, ha, hb⟩ := trimChars_decomp s.toList
  have ha' : ∀ c ∈ a.map lowerChar, isSepChar c = true := by
    intro c hc
    obtain ⟨d, hd, rfl⟩ := List.mem_map.mp hc
    rw [isSepChar_lowerChar]
    exact isSepChar_of_isWsChar d (ha d hd)
  have hm' : ∀ c ∈ (trimChars s.toList).map lowerChar, isSepChar c = false := by
    intro c hc
    obtain ⟨d, hd, rfl⟩ := List.mem_map.mp hc
    rw [isSepChar_lowerChar]
    exact hm_sep d hd
  have hb' : ∀ c ∈ b.map lowerChar, isSepChar c = true := by
    intro c hc
    obtain ⟨d, hd, rfl⟩ := List.mem_map.mp hc
    rw [isSepChar_lowerChar]
    exact isSepChar_of_isWsChar d (hb d hd)
  have hshape : ∃ ws, splitChars (b.map lowerChar) = [] :: ws ∧
      ∀ x ∈ ws, x = ([] : List Char) := by
    rw [splitChars_allSep _ hb']
    cases hk : (b.map lowerChar).length with
    | zero => exact ⟨[], rfl, by simp⟩
    | succ n =>
      rw [List.replicate_succ, List.cons_append]
      refine ⟨List.replicate n [] ++ [[]], rfl, ?_⟩
      intro x hx
      rcases List.mem_append.mp hx with h1 | h1
      · exact List.eq_of_mem_replicate h1
      · simpa using h1
  obtain ⟨ws, hcons, hws⟩ := hshape
  have hsplitmb := splitChars_append_sepFree _ hm' _ _ _ hcons
  have hfulllist : (strToLower s).toList =
      a.map lowerChar ++ ((trimChars s.toList).map lowerChar ++ b.map lowerChar) := by
    show s.toList.map lowerChar = _
    conv_lhs => rw [hdec]
    rw [List.map_append, List.map_append, List.append_assoc]
  have hsplitfull : splitChars (strToLower s).toList =
      List.replicate (a.map lowerChar).length []
        ++ (((trimChars s.toList).map lowerChar ++ []) :: ws) := by
    rw [hfulllist, splitChars_sep_prefix _ _ ha', hsplitmb]
  have hMne : (trimChars s.toList).map lowerChar ≠ [] := by
    simpa using hm_ne
  have hMtrim : strTrim ⟨(trimChars s.toList).map lowerChar⟩ =
      ⟨(trimChars s.toList).map lowerChar⟩ := by
    show (⟨trimChars ((trimChars s.toList).map lowerChar)⟩ : String) = _
    rw [trimChars_eq_self _
      (fun c hc => isWsChar_eq_false_of_not_sep c (hm' c hc))]
  have hMstr : (⟨(trimChars s.toList).map lowerChar⟩ : String) =
      strToLower (strTrim s) := rfl
  have hMbeq : ((⟨(trimChars s.toList).map lowerChar⟩ : String) == "") = false := by
    rw [beq_eq_false_iff_ne]
    intro h
    exact hMne (congrArg String.data h)
  have hparts : (((splitChars (strToLower s).toList).map
      (fun w => strTrim ⟨w⟩)).filter (fun t => !(t == ""))) =
        [strToLower (strTrim s)] := by
    rw [hsplitfull, List.map_append, List.filter_append]
    have hrep : ((List.replicate (a.map lowerChar).length ([] : List Char)).map
        (fun w => strTrim ⟨w⟩)).filter (fun t => !(t == "")) = [] := by
      rw [List.filter_eq_nil_iff]
      intro t ht
      obtain ⟨x, hx, rfl⟩ := List.mem_map.mp ht
      rw [List.eq_of_mem_replicate hx]
      decide
    have hcons2 : ((((trimChars s.toList).map lowerChar ++ []) :: ws).map
        (fun w => strTrim ⟨w⟩)).filter (fun t => !(t == "")) =
          [strToLower (strTrim s)] := by
      rw [List.map_cons, List.filter_cons, List.append_nil, hMtrim]
      rw [if_pos (by rw [hMbeq]; rfl)]
      rw [List.filter_eq_nil_iff.mpr ?_, hMstr]
      intro t ht
      obtain ⟨x, hx, rfl⟩ := List.mem_map.mp ht
      rw [hws x hx]
      decide
    rw [hrep, hcons2, List.nil_append]
  have hpart1 : tokenizeClassName s =
      [strToLower (strTrim s), strToLower (strTrim s)] := by
    show strToLower (strTrim s) :: _ = _
    rw [hparts]
  refine ⟨hpart1, fun conf r => ?_⟩
  rw [hpart1]
  simp only [List.map_cons, List.map_nil, List.sum_cons, List.sum_nil]
  rw [tagPairScore_exact, rankMultiplier_eq_rankWeight]
  ring

/-- Witness for C10 on the input `" Mug "`. -/
theorem tokenizeClassName_single_word_witness :
    ((∀ c ∈ (strTrim " Mug ").toList, isSepChar c = false) ∧ strTrim " Mug " ≠ "") ∧
      tokenizeClassName " Mug " =
        [strToLower (strTrim " Mug "), strToLower (strTrim " Mug ")] :=
  ⟨⟨by decide, by decide⟩,
    (tokenizeClassName_single_word " Mug " (by decide) (by decide)).1⟩

/-! ## Monotonicity of the score in the prediction list -/

theorem buildPredictionWordsFrom_append (l1 l2 : List Prediction) :
    ∀ n, buildPredictionWordsFrom n (l1 ++ l2) =
      buildPredictionWordsFrom n l1 ++ buildPredictionWordsFrom (n + l1.length) l2 := by
  induction l1 with
  | nil => intro n; simp [buildPredictionWordsFrom]
  | cons p ps ih =>
    intro n
    rw [List.cons_append, buildPredictionWordsFrom, buildPredictionWordsFrom, ih (n + 1),
      List.append_assoc]
    have : n + 1 + ps.length = n + (p :: ps).length := by
      simp only [List.length_cons]
      omega
    rw [this]

theorem sum_map_add {α : Type} (l : List α) (f g : α → ℚ) :
    (l.map (fun x => f x + g x)).sum = (l.map f).sum + (l.map g).sum := by
  induction l with
  | nil => simp
  | cons a l ih =>
    simp only [List.map_cons, List.sum_cons, ih]
    ring

theorem tagFieldScore_append (p1 p2 : List PredictionWord) (tag : String) :
    tagFieldScore (p1 ++ p2) tag = tagFieldScore p1 tag + tagFieldScore p2 tag := by
  unfold tagFieldScore
  rw [show (fun tagWord => (((p1 ++ p2).map (tagPairScore tagWord)).sum)) =
      (fun tagWord => ((p1.map (tagPairScore tagWord)).sum
          + (p2.map (tagPairScore tagWord)).sum)) from
    funext (fun tagWord => by rw [List.map_append, List.sum_append])]
  exact sum_map_add _ _ _

theorem tagsScore_append (p1 p2 : List PredictionWord) (tags : List String) :
    tagsScore (p1 ++ p2) tags = tagsScore p1 tags + tagsScore p2 tags := by
  unfold tagsScore
  rw [show tagFieldScore (p1 ++ p2) =
      (fun tag => tagFieldScore p1 tag + tagFieldScore p2 tag) from
    funext (fun tag => tagFieldScore_append p1 p2 tag)]
  exact sum_map_add _ _ _

theorem nameScore_append (p1 p2 : List PredictionWord) (nameWords : List String) :
    nameScore (p1 ++ p2) nameWords = nameScore p1 nameWords + nameScore p2 nameWords := by
  unfold nameScore
  rw [show (fun nameWord => (((p1 ++ p2).map (namePairScore nameWord)).sum)) =
      (fun nameWord => ((p1.map (namePairScore nameWord)).sum
          + (p2.map (namePairScore nameWord)).sum)) from
    funext (fun nameWord => by rw [List.map_append, List.sum_append])]
  exact sum_map_add _ _ _

theorem categoryScore_append (p1 p2 : List PredictionWord) (category : String) :
    categoryScore (p1 ++ p2) category =
      categoryScore p1 category + categoryScore p2 category := by
  unfold categoryScore
  rw [List.map_append, List.sum_append]

theorem tagFieldScore_nonneg (pws : List PredictionWord) (tag : String)
    (h : ∀ pw ∈ pws, 0 ≤ pw.probability) : 0 ≤ tagFieldScore pws tag := by
  apply List.sum_nonneg
  intro x hx
  obtain ⟨tw, _, rfl⟩ := List.mem_map.mp hx
  apply List.sum_nonneg
  intro y hy
  obtain ⟨pw, hpw, rfl⟩ := List.mem_map.mp hy
  exact tagPairScore_nonneg tw pw (h pw hpw)

theorem tagsScore_nonneg (pws : List PredictionWord) (tags : List String)
    (h : ∀ pw ∈ pws, 0 ≤ pw.probability) : 0 ≤ tagsScore pws tags := by
  apply List.sum_nonneg
  intro x hx
  obtain ⟨tag, _, rfl⟩ := List.mem_map.mp hx
  exact tagFieldScore_nonneg pws tag h

theorem nameScore_nonneg (pws : List PredictionWord) (nameWords : List String)
    (h : ∀ pw ∈ pws, 0 ≤ pw.probability) : 0 ≤ nameScore pws nameWords := by
  apply List.sum_nonneg
  intro x hx
  obtain ⟨nw, _, rfl⟩ := List.mem_map.mp hx
  apply List.sum_nonneg
  intro y hy
  obtain ⟨pw, hpw, rfl⟩ := List.mem_map.mp hy
  exact namePairScore_nonneg nw pw (h pw hpw)

theorem categoryScore_nonneg (pws : List PredictionWord) (category : String)
    (h : ∀ pw ∈ pws, 0 ≤ pw.probability) : 0 ≤ categoryScore pws category := by
  apply List.sum_nonneg
  intro y hy
  obtain ⟨pw, hpw, rfl⟩ := List.mem_map.mp hy
  exact categoryPairScore_nonneg category pw (h pw hpw)

/-- One qualifying pair bounds the whole tag-pass contribution from below. -/
theorem tagsScore_ge_single (pws : List PredictionWord) (tags : List String)
    (tag tw : String) (pw : PredictionWord) (htag : tag ∈ tags)
    (htw : tw ∈ tokenizeClassName tag) (hpw : pw ∈ pws)
    (hprob : ∀ q ∈ pws, 0 ≤ q.probability) :
    tagPairScore tw pw ≤ tagsScore pws tags := by
  have h1 : tagPairScore tw pw ≤ (pws.map (tagPairScore tw)).sum := by
    apply List.single_le_sum
    · intro x hx
      obtain ⟨q, hq, rfl⟩ := List.mem_map.mp hx
      exact tagPairScore_nonneg tw q (hprob q hq)
    · exact List.mem_map_of_mem _ hpw
  have h2 : (pws.map (tagPairScore tw)).sum ≤ tagFieldScore pws tag := by
    apply List.single_le_sum
    · intro x hx
      obtain ⟨tw2, _, rfl⟩ := List.mem_map.mp hx
      apply List.sum_nonneg
      intro y hy
      obtain ⟨q, hq, rfl⟩ := List.mem_map.mp hy
      exact tagPairScore_nonneg tw2 q (hprob q hq)
    · exact List.mem_map_of_mem _ htw
  have h3 : tagFieldScore pws tag ≤ tagsScore pws tags := by
    apply List.single_le_sum
    · intro x hx
      obtain ⟨tag2, _, rfl⟩ := List.mem_map.mp hx
      exact tagFieldScore_nonneg pws tag2 hprob
    · exact List.mem_map_of_mem _ htag
  linarith

/-- With predictions `[{"mug", 0}]` (zero confidence) the score of the
`"mug"`-tagged product is still `0`. -/
theorem calcSim_zero_conf :
    (calculateSimilarity [⟨"mug", 0⟩] ⟨"Mug", "kitchen", ["mug"]⟩).score = 0 := by
  have h1 : buildPredictionWords [⟨"mug", 0⟩] = [⟨"mug", 0, 0⟩, ⟨"mug", 0, 0⟩] := by decide
  have h2 : tokenizeClassName "mug" = ["mug", "mug"] := by decide
  have h3 : tokenizeClassName "Mug" = ["mug", "mug"] := by decide
  have h4 : categoryGateB "kitchen" "mug" = false := by decide
  rw [calculateSimilarity_score, h1]
  show tagsScore _ ["mug"] + nameScore _ (tokenizeClassName "Mug") + categoryScore _ "kitchen" = 0
  rw [h3]
  unfold tagsScore tagFieldScore nameScore categoryScore
  simp only [List.map_cons, List.map_nil, List.sum_cons, List.sum_nil, h2]
  norm_num [tagPairScore, namePairScore, categoryPairScore, rankMultiplier, h4]

/-- Counterexample to C5 as stated: adding the prediction `{"mug", 0}` — whose
tokenized label contains the token `"mug"`, exactly matching the item's tag
`"mug"` — does **not** strictly increase the score: it stays `0`, because the
contribution is scaled by the confidence `0`. -/
theorem monotonicity_cex :
    ("mug" ∈ tokenizeClassName "mug" ∧
        "mug" ∈ (⟨"Mug", "kitchen", ["mug"]⟩ : Product).tags) ∧
      ¬ ((calculateSimilarity [] ⟨"Mug", "kitchen", ["mug"]⟩).score <
          (calculateSimilarity [⟨"mug", 0⟩] ⟨"Mug", "kitchen", ["mug"]⟩).score) := by
  refine ⟨⟨by decide, by decide⟩, ?_⟩
  rw [calculateSimilarity_nil_predictions, calcSim_zero_conf]
  norm_num

/-- C5 (amended): appending a prediction with **positive** confidence whose
tokenized label contains a token of length `> 2` equal to the lower-cased
trimmed form of one of the item's tags strictly increases the item's score. -/
theorem calculateSimilarity_append_strict (preds : List Prediction) (product : Product)
    (pnew : Prediction) (t tag : String)
    (htag : tag ∈ product.tags)
    (ht : t ∈ tokenizeClassName pnew.className)
    (hlen : 2 < strLen t)
    (hmatch : t = strToLower (strTrim tag))
    (hconf : 0 < pnew.probability) :
    (calculateSimilarity preds product).score <
      (calculateSimilarity (preds ++ [pnew]) product).score := by
  rw [calculateSimilarity_score, calculateSimilarity_score]
  have hsplit : buildPredictionWords (preds ++ [pnew]) =
      buildPredictionWords preds ++ buildPredictionWordsFrom preds.length [pnew] := by
    unfold buildPredictionWords
    rw [buildPredictionWordsFrom_append]
    simp
  rw [hsplit, tagsScore_append, nameScore_append, categoryScore_append]
  have hprob : ∀ q ∈ buildPredictionWordsFrom preds.length [pnew], 0 ≤ q.probability := by
    intro q hq
    rw [buildPredictionWordsFrom] at hq
    rcases List.mem_append.mp hq with h1 | h1
    · obtain ⟨w, _, rfl⟩ := List.mem_map.mp h1
      exact hconf.le
    · simp [buildPredictionWordsFrom] at h1
  have hpw : (⟨t, pnew.probability, preds.length⟩ : PredictionWord) ∈
      buildPredictionWordsFrom preds.length [pnew] := by
    rw [buildPredictionWordsFrom]
    apply List.mem_append.mpr
    left
    exact List.mem_map_of_mem _ (List.mem_filter.mpr ⟨ht, by simpa using hlen⟩)
  have htw : t ∈ tokenizeClassName tag := by
    rw [hmatch]
    exact List.mem_cons_self _ _
  have hge : 100 * pnew.probability * rankMultiplier preds.length ≤
      tagsScore (buildPredictionWordsFrom preds.length [pnew]) product.tags := by
    rw [← tagPairScore_exact t pnew.probability preds.length]
    exact tagsScore_ge_single _ _ tag t _ htag htw hpw hprob
  have hpos : 0 < 100 * pnew.probability * rankMultiplier preds.length :=
    mul_pos (mul_pos (by norm_num) hconf) (rankMultiplier_pos _)
  have hn : 0 ≤ nameScore (buildPredictionWordsFrom preds.length [pnew])
      (tokenizeClassName product.name) := nameScore_nonneg _ _ hprob
  have hc : 0 ≤ categoryScore (buildPredictionWordsFrom preds.length [pnew])
      product.category := categoryScore_nonneg _ _ hprob
  linarith

/-- Witness for the amended C5: appending `{"mug", 1}` to an empty prediction
list strictly raises the `"mug"`-tagged product's score. -/
theorem calculateSimilarity_append_strict_witness :
    (("mug" : String) ∈ (⟨"Mug", "kitchen", ["mug"]⟩ : Product).tags ∧
        "mug" ∈ tokenizeClassName "mug" ∧ 2 < strLen "mug" ∧
        ("mug" : String) = strToLower (strTrim "mug") ∧ (0 : ℚ) < 1) ∧
      (calculateSimilarity [] ⟨"Mug", "kitchen", ["mug"]⟩).score <
        (calculateSimilarity ([] ++ [⟨"mug", 1⟩]) ⟨"Mug", "kitchen", ["mug"]⟩).score :=
  ⟨⟨by decide, by decide, by decide, by decide, by decide⟩,
    calculateSimilarity_append_strict [] ⟨"Mug", "kitchen", ["mug"]⟩ ⟨"mug", 1⟩
      "mug" "mug" (by decide) (by decide) (by decide) (by decide) (by decide)⟩
